import Mathlib

/-!
Verification of the socket-to-response pipeline of `tcp_server.py`.

The development shallowly embeds the pure core of the server:
`parse_http_request` (request-line and query parsing, including the relevant
subset of CPython's `urllib.parse.urlparse`, `parse_qs`, `parse_qsl` and
`unquote`), `create_http_response` (response framing), and the control flow
of `handle_client` (read, decode, parse, route, respond, close), modelled as
a pure function from an environment describing the socket and the two
external collaborators to a trace of socket events.

Python strings are modelled as `List Char`, byte strings as `List Nat`
(each element a byte value), a raised exception as the `Except.error` /
`Option.none` branch, and the per-connection socket as a trace of
`SockEvent`s (send attempts and the final close).
-/

/-- Python strings are modelled as lists of characters. -/
abbrev Str := List Char

/-- Query mapping of `parse_qs`: a Python `dict[str, list[str]]`, modelled as
an insertion-ordered association list with pairwise-distinct keys. -/
abbrev QueryMap := List (Str × List Str)

/-- Characters on which Python `str.split()` (no argument) splits: the set of
Unicode whitespace recognised by `str.isspace`. -/
def pyIsSpace (c : Char) : Bool :=
  let n := c.toNat
  (0x9 ≤ n && n ≤ 0xD) || n == 0x20 || (0x1C ≤ n && n ≤ 0x1F) || n == 0x85 ||
    n == 0xA0 || n == 0x1680 || (0x2000 ≤ n && n ≤ 0x200A) || n == 0x2028 ||
    n == 0x2029 || n == 0x202F || n == 0x205F || n == 0x3000

/-- Scanner of Python `str.split("\r\n")`: `cur` is the piece currently
being accumulated (kept reversed).  A `\r` immediately followed by `\n`
terminates the piece; any other character, including a lone `\r`, joins it. -/
def splitCRLFAux (cur : Str) : Str → List Str
  | [] => [cur.reverse]
  | [c] => [(c :: cur).reverse]
  | '\r' :: '\n' :: rest => cur.reverse :: splitCRLFAux [] rest
  | c :: rest => splitCRLFAux (c :: cur) rest

/-- Python `request.split("\r\n")`: split on every non-overlapping occurrence
of the two-character separator, scanning left to right.  Always returns at
least one (possibly empty) part, like the Python original. -/
def splitCRLF (s : Str) : List Str := splitCRLFAux [] s

/-- Scanner of Python `str.split()`: `cur` is the (reversed) token being
accumulated; whitespace ends the token and empty tokens are discarded. -/
def pySplitWsAux (cur : Str) : Str → List Str
  | [] => if cur = [] then [] else [cur.reverse]
  | c :: rest =>
    if pyIsSpace c then
      (if cur = [] then [] else [cur.reverse]) ++ pySplitWsAux [] rest
    else pySplitWsAux (c :: cur) rest

/-- Python `str.split()` with no argument: split on runs of whitespace,
discarding empty tokens. -/
def pySplitWs (s : Str) : List Str := pySplitWsAux [] s

/-- Python `str.split(sep)` for a one-character separator `sep`. -/
def pySplitChar (sep : Char) (s : Str) : List Str :=
  match s with
  | [] => [[]]
  | c :: rest =>
    if c = sep then [] :: pySplitChar sep rest
    else
      match pySplitChar sep rest with
      | [] => [[c]]
      | l :: ls => (c :: l) :: ls

/-- Python `bytes.split(sep)` for a one-byte separator. -/
def pySplitByte (sep : Nat) (s : List Nat) : List (List Nat) :=
  match s with
  | [] => [[]]
  | b :: rest =>
    if b = sep then [] :: pySplitByte sep rest
    else
      match pySplitByte sep rest with
      | [] => [[b]]
      | l :: ls => (b :: l) :: ls

/-- Python `str.find(c)`: index of the first occurrence, `none` for Python's
`-1`. -/
def pyFindChar (c : Char) (s : Str) : Option Nat :=
  match s with
  | [] => none
  | x :: rest => if x = c then some 0 else (pyFindChar c rest).map (· + 1)

/-- Python `str.rfind(c)`: index of the last occurrence, `none` for `-1`. -/
def pyRfindChar (c : Char) (s : Str) : Option Nat :=
  (pyFindChar c s.reverse).map (fun i => s.length - 1 - i)

/-- Python `str.find(c, start)`: first occurrence at index `start` or later. -/
def pyFindCharFrom (c : Char) (start : Nat) (s : Str) : Option Nat :=
  (pyFindChar c (s.drop start)).map (· + start)

/-- Python `str.partition(sep)` restricted to the two components the server
uses: the part before the first occurrence of `sep` and the part after it. -/
def pyPartition (sep : Char) (s : Str) : Str × Str :=
  (s.takeWhile (fun c => c ≠ sep), (s.dropWhile (fun c => c ≠ sep)).drop 1)

/-- Decimal rendering of a natural number, as Python `str(n)`. -/
def natStr (n : Nat) : Str := (Nat.repr n).data

/-- Decimal rendering of an integer, as Python `str(i)`. -/
def intStr (i : Int) : Str :=
  match i with
  | Int.ofNat n => natStr n
  | Int.negSucc n => '-' :: natStr (n + 1)

/-- Whether a byte lies in a given inclusive range (used for UTF-8
continuation bytes). -/
def contIn (lo hi b : Nat) : Bool := lo ≤ b && b ≤ hi

/-- Lower bound for the first continuation byte of a three-byte sequence:
`0xE0` forbids overlong encodings. -/
def lo3 (b : Nat) : Nat := if b = 0xE0 then 0xA0 else 0x80

/-- Upper bound for the first continuation byte of a three-byte sequence:
`0xED` excludes surrogates. -/
def hi3 (b : Nat) : Nat := if b = 0xED then 0x9F else 0xBF

/-- Lower bound for the first continuation byte of a four-byte sequence:
`0xF0` forbids overlong encodings. -/
def lo4 (b : Nat) : Nat := if b = 0xF0 then 0x90 else 0x80

/-- Upper bound for the first continuation byte of a four-byte sequence:
`0xF4` keeps code points at or below U+10FFFF. -/
def hi4 (b : Nat) : Nat := if b = 0xF4 then 0x8F else 0xBF

/-- Python `bytes.decode("utf-8")` with default strict error handling:
`none` models a raised `UnicodeDecodeError`.  Follows RFC 3629 (and
CPython): overlong encodings, surrogates and values above U+10FFFF are
invalid. -/
def utf8DecodeStrict : List Nat → Option Str
  | [] => some []
  | b :: rest =>
    if b < 0x80 then (utf8DecodeStrict rest).map (Char.ofNat b :: ·)
    else if 0xC2 ≤ b && b ≤ 0xDF then
      match rest with
      | b1 :: rest1 =>
        if contIn 0x80 0xBF b1 then
          (utf8DecodeStrict rest1).map
            (Char.ofNat ((b - 0xC0) * 0x40 + (b1 - 0x80)) :: ·)
        else none
      | [] => none
    else if 0xE0 ≤ b && b ≤ 0xEF then
      match rest with
      | b1 :: rest1 =>
        if contIn (lo3 b) (hi3 b) b1 then
          match rest1 with
          | b2 :: rest2 =>
            if contIn 0x80 0xBF b2 then
              (utf8DecodeStrict rest2).map
                (Char.ofNat ((b - 0xE0) * 0x1000 + (b1 - 0x80) * 0x40 +
                  (b2 - 0x80)) :: ·)
            else none
          | [] => none
        else none
      | [] => none
    else if 0xF0 ≤ b && b ≤ 0xF4 then
      match rest with
      | b1 :: rest1 =>
        if contIn (lo4 b) (hi4 b) b1 then
          match rest1 with
          | b2 :: rest2 =>
            if contIn 0x80 0xBF b2 then
              match rest2 with
              | b3 :: rest3 =>
                if contIn 0x80 0xBF b3 then
                  (utf8DecodeStrict rest3).map
                    (Char.ofNat ((b - 0xF0) * 0x40000 + (b1 - 0x80) * 0x1000 +
                      (b2 - 0x80) * 0x40 + (b3 - 0x80)) :: ·)
                else none
              | [] => none
            else none
          | [] => none
        else none
      | [] => none
    else none

/-- Worker for `utf8DecodeReplace`.  `fuel` only bounds the recursion (each
step consumes at least one byte, so `fuel = bs.length` always suffices and
the `0` case is never reached from `utf8DecodeReplace`). -/
def utf8DecodeReplaceAux : Nat → List Nat → Str
  | _, [] => []
  | 0, _ :: _ => []
  | fuel + 1, b :: rest =>
    if b < 0x80 then Char.ofNat b :: utf8DecodeReplaceAux fuel rest
    else if 0xC2 ≤ b && b ≤ 0xDF then
      match rest with
      | b1 :: rest1 =>
        if contIn 0x80 0xBF b1 then
          Char.ofNat ((b - 0xC0) * 0x40 + (b1 - 0x80)) ::
            utf8DecodeReplaceAux fuel rest1
        else Char.ofNat 0xFFFD :: utf8DecodeReplaceAux fuel (b1 :: rest1)
      | [] => [Char.ofNat 0xFFFD]
    else if 0xE0 ≤ b && b ≤ 0xEF then
      match rest with
      | b1 :: rest1 =>
        if contIn (lo3 b) (hi3 b) b1 then
          match rest1 with
          | b2 :: rest2 =>
            if contIn 0x80 0xBF b2 then
              Char.ofNat ((b - 0xE0) * 0x1000 + (b1 - 0x80) * 0x40 +
                (b2 - 0x80)) :: utf8DecodeReplaceAux fuel rest2
            else Char.ofNat 0xFFFD :: utf8DecodeReplaceAux fuel (b2 :: rest2)
          | [] => [Char.ofNat 0xFFFD]
        else Char.ofNat 0xFFFD :: utf8DecodeReplaceAux fuel (b1 :: rest1)
      | [] => [Char.ofNat 0xFFFD]
    else if 0xF0 ≤ b && b ≤ 0xF4 then
      match rest with
      | b1 :: rest1 =>
        if contIn (lo4 b) (hi4 b) b1 then
          match rest1 with
          | b2 :: rest2 =>
            if contIn 0x80 0xBF b2 then
              match rest2 with
              | b3 :: rest3 =>
                if contIn 0x80 0xBF b3 then
                  Char.ofNat ((b - 0xF0) * 0x40000 + (b1 - 0x80) * 0x1000 +
                    (b2 - 0x80) * 0x40 + (b3 - 0x80)) ::
                    utf8DecodeReplaceAux fuel rest3
                else Char.ofNat 0xFFFD :: utf8DecodeReplaceAux fuel (b3 :: rest3)
              | [] => [Char.ofNat 0xFFFD]
            else Char.ofNat 0xFFFD :: utf8DecodeReplaceAux fuel (b2 :: rest2)
          | [] => [Char.ofNat 0xFFFD]
        else Char.ofNat 0xFFFD :: utf8DecodeReplaceAux fuel (b1 :: rest1)
      | [] => [Char.ofNat 0xFFFD]
    else Char.ofNat 0xFFFD :: utf8DecodeReplaceAux fuel rest

/-- Python `bytes.decode("utf-8", errors="replace")`: every maximal invalid
subpart (the longest valid prefix of a sequence, at least one byte) is
replaced by a single U+FFFD, as in CPython's UTF-8 codec. -/
def utf8DecodeReplace (bs : List Nat) : Str :=
  utf8DecodeReplaceAux bs.length bs

/-- UTF-8 encoding of one character, as Python `str.encode("utf-8")` does
per code point. -/
def utf8EncodeChar (c : Char) : List Nat :=
  let n := c.toNat
  if n < 0x80 then [n]
  else if n < 0x800 then [0xC0 + n / 0x40, 0x80 + n % 0x40]
  else if n < 0x10000 then
    [0xE0 + n / 0x1000, 0x80 + (n / 0x40) % 0x40, 0x80 + n % 0x40]
  else
    [0xF0 + n / 0x40000, 0x80 + (n / 0x1000) % 0x40, 0x80 + (n / 0x40) % 0x40,
      0x80 + n % 0x40]

/-- Python `str.encode("utf-8")`. -/
def utf8Encode (s : Str) : List Nat :=
  s.foldr (fun c acc => utf8EncodeChar c ++ acc) []

/-- Value of an ASCII hex digit byte, as looked up in CPython's `_hextobyte`
table (both cases accepted). -/
def hexVal (b : Nat) : Option Nat :=
  if 0x30 ≤ b && b ≤ 0x39 then some (b - 0x30)
  else if 0x61 ≤ b && b ≤ 0x66 then some (b - 0x57)
  else if 0x41 ≤ b && b ≤ 0x46 then some (b - 0x37)
  else none

/-- Process the chunks following the first `%` in `urllib.parse`'s
`_unquote_impl`: each chunk beginning with two hex digits contributes the
corresponding byte followed by the chunk's tail; otherwise the `%` is kept
literally. -/
def unquoteChunks (chunks : List (List Nat)) : List Nat :=
  chunks.foldr
    (fun item acc =>
      (match item with
       | h1 :: h2 :: t =>
         match hexVal h1, hexVal h2 with
         | some a, some b => (a * 16 + b) :: t
         | _, _ => 0x25 :: item
       | _ => 0x25 :: item) ++ acc)
    []

/-- CPython `urllib.parse.unquote_to_bytes` (via `_unquote_impl`) on a
string: encode as UTF-8, split on `%` (byte `0x25`) and decode each escape. -/
def unquote_to_bytes (s : Str) : List Nat :=
  if s = [] then []
  else
    match pySplitByte 0x25 (utf8Encode s) with
    | [] => []
    | [_] => utf8Encode s
    | b0 :: restBits => b0 ++ unquoteChunks restBits

/-- Whether a character is ASCII, as matched by `urllib.parse._asciire`. -/
def isAsciiC (c : Char) : Bool := c.toNat < 0x80

/-- Scanner for `asciiRuns`: `a` is the ASCII-ness of the run being
accumulated and `cur` its (reversed) characters. -/
def asciiRunsAux (a : Bool) (cur : Str) : Str → List (Bool × Str)
  | [] => [(a, cur.reverse)]
  | c :: rest =>
    if isAsciiC c = a then asciiRunsAux a (c :: cur) rest
    else (a, cur.reverse) :: asciiRunsAux (isAsciiC c) [c] rest

/-- Maximal runs of the string on which `isAsciiC` is constant, each tagged
with that constant value.  This models the segmentation performed by
`_asciire.split` in `urllib.parse.unquote`. -/
def asciiRuns : Str → List (Bool × Str)
  | [] => []
  | c :: rest => asciiRunsAux (isAsciiC c) [c] rest

/-- CPython `urllib.parse.unquote(s)` with the default `encoding="utf-8"`,
`errors="replace"`: a string without `%` is returned unchanged; otherwise
each ASCII run is percent-decoded to bytes and those bytes are decoded as
UTF-8 with replacement, while non-ASCII runs pass through unchanged. -/
def unquote (s : Str) : Str :=
  if s.contains '%' = false then s
  else
    (asciiRuns s).foldr
      (fun r acc =>
        (if r.1 then utf8DecodeReplace (unquote_to_bytes r.2) else r.2) ++ acc)
      []

/-- CPython `urllib.parse.parse_qsl(qs)` with all defaults
(`keep_blank_values=False`, `strict_parsing=False`, `encoding="utf-8"`,
`errors="replace"`, `separator="&"`): split on `&`, skip empty chunks,
skip chunks without `=` and chunks with an empty value, and decode both
name and value by `+`-to-space then `unquote`.  Note that since CPython
3.9.2 the default separator is `&` only; `;` does not separate pairs. -/
def parse_qsl (qs : Str) : List (Str × Str) :=
  (pySplitChar '&' qs).filterMap
    (fun name_value =>
      if name_value = [] then none
      else
        match pyFindChar '=' name_value with
        | none => none
        | some i =>
          let value := name_value.drop (i + 1)
          if value = [] then none
          else
            some
              (unquote ((name_value.take i).map (fun c => if c = '+' then ' ' else c)),
               unquote (value.map (fun c => if c = '+' then ' ' else c))))

/-- Append a decoded (name, value) pair to the dictionary built by
`parse_qs`: an existing key accumulates the value at the end of its list, a
new key is inserted at the end with a singleton list. -/
def qsInsert (m : QueryMap) (k : Str) (v : Str) : QueryMap :=
  match m with
  | [] => [(k, [v])]
  | (k', vs) :: rest =>
    if k' = k then (k', vs ++ [v]) :: rest else (k', vs) :: qsInsert rest k v

/-- CPython `urllib.parse.parse_qs(qs)` with default arguments: group the
pairs of `parse_qsl` by key, preserving the order of values. -/
def parse_qs (qs : Str) : QueryMap :=
  (parse_qsl qs).foldl (fun m nv => qsInsert m nv.1 nv.2) []

/-- Dictionary lookup in a `QueryMap` (Python `d[k]` / `k in d`). -/
def qsGet (m : QueryMap) (k : Str) : Option (List Str) :=
  match m with
  | [] => none
  | (k', vs) :: rest => if k' = k then some vs else qsGet rest k

/-- Result of `urllib.parse.urlsplit`. -/
structure SplitResult where
  scheme : Str
  netloc : Str
  path : Str
  query : Str
  fragment : Str
deriving DecidableEq

/-- Result of `urllib.parse.urlparse`. -/
structure UrlParseResult where
  scheme : Str
  netloc : Str
  path : Str
  params : Str
  query : Str
  fragment : Str
deriving DecidableEq

/-- The sanitisation `urlsplit` applies first: strip leading C0 control or
space characters, then remove every tab, carriage return and newline. -/
def wsClean (s : Str) : Str :=
  (s.dropWhile (fun c => c.toNat ≤ 0x20)).filter
    (fun c => ¬ (c = '\t' ∨ c = '\r' ∨ c = '\n'))

/-- Characters allowed after the first character of a URL scheme
(`urllib.parse.scheme_chars`). -/
def schemeChar (c : Char) : Bool :=
  c.isAlpha || c.isDigit || c = '+' || c = '-' || c = '.'

/-- The scheme-detection step of `urlsplit`: if the text before the first
`:` is a well-formed scheme (first character an ASCII letter, the rest
scheme characters), split it off lowercased; otherwise leave the URL
unchanged with an empty scheme. -/
def schemeSplit (url : Str) : Str × Str :=
  match pyFindChar ':' url with
  | some i =>
    if 0 < i ∧ (url.headD '0').isAlpha = true ∧
        ((url.drop 1).take (i - 1)).all schemeChar = true then
      ((url.take i).map Char.toLower, url.drop (i + 1))
    else ([], url)
  | none => ([], url)

/-- The netloc extraction of `urlsplit` (`_splitnetloc` with `start = 2`):
the authority runs from after `//` to the first `/`, `?` or `#`. -/
def splitNetloc (url : Str) : Str × Str :=
  let rest := url.drop 2
  (rest.takeWhile (fun c => ¬ (c = '/' ∨ c = '?' ∨ c = '#')),
   rest.dropWhile (fun c => ¬ (c = '/' ∨ c = '?' ∨ c = '#')))

/-- The fragment and query extraction at the end of `urlsplit`: the fragment
is split off at the first `#` (when present), then the query at the first
`?` (when present). -/
def splitFragQuery (scheme netloc url : Str) : SplitResult :=
  let fu := if url.contains '#' then pyPartition '#' url else (url, [])
  let qu := if fu.1.contains '?' then pyPartition '?' fu.1 else (fu.1, [])
  ⟨scheme, netloc, qu.1, qu.2, fu.2⟩

/-- CPython `urllib.parse.urlsplit` with `allow_fragments=True`, on the
inputs the server can pass it.  The `Invalid IPv6 URL` `ValueError` for an
unmatched square bracket in the authority is modelled as `Except.error`.
(The additional `_checknetloc` rejection of some non-ASCII authorities via
NFKC normalisation is not modelled; it can only fire when an authority
component is present, which is also where the modelled bracket check
lives.) -/
def urlsplit (url0 : Str) : Except Str SplitResult :=
  let su := schemeSplit (wsClean url0)
  if su.2.take 2 = ['/', '/'] then
    let nl := splitNetloc su.2
    if (nl.1.contains '[' ∧ nl.1.contains ']' = false) ∨
        (nl.1.contains ']' ∧ nl.1.contains '[' = false) then
      .error "Invalid IPv6 URL".data
    else .ok (splitFragQuery su.1 nl.1 nl.2)
  else .ok (splitFragQuery su.1 [] su.2)

/-- CPython `urllib.parse._splitparams`: split parameters off the last path
segment at the first `;` at or after the last `/`. -/
def splitParams (url : Str) : Str × Str :=
  if url.contains '/' then
    match pyFindCharFrom ';' ((pyRfindChar '/' url).getD 0) url with
    | none => (url, [])
    | some i => (url.take i, url.drop (i + 1))
  else
    match pyFindChar ';' url with
    | none => (url, [])
    | some i => (url.take i, url.drop (i + 1))

/-- CPython `urllib.parse.urlparse` with `allow_fragments=True`. -/
def urlparse (url : Str) : Except Str UrlParseResult :=
  match urlsplit url with
  | .error e => .error e
  | .ok u =>
    if u.path.contains ';' then
      let pp := splitParams u.path
      .ok ⟨u.scheme, u.netloc, pp.1, pp.2, u.query, u.fragment⟩
    else .ok ⟨u.scheme, u.netloc, u.path, [], u.query, u.fragment⟩

/-- The server's `parse_http_request`: split the raw request on CRLF, split
the first line on whitespace, and return the sentinel for fewer than two
tokens, otherwise the method, the path of `urlparse(full_path)` and the
query mapping of `parse_qs`.  An `Except.error` models the `ValueError`
that `urlparse` can raise, which propagates out of the function. -/
def parse_http_request (request : Str) : Except Str (Str × Str × QueryMap) :=
  match splitCRLF request with
  | [] => .ok ([], [], [])
  | request_line :: _ =>
    match pySplitWs request_line with
    | method :: full_path :: _ =>
      match urlparse full_path with
      | .error e => .error e
      | .ok u => .ok (method, u.path, parse_qs u.query)
    | _ => .ok ([], [], [])

/-- The literal returned by `get_index_page`. -/
def index_page : Str :=
  "\n".data ++
  "    <!DOCTYPE html>\n".data ++
  "    <html>\n".data ++
  "        <head>\n".data ++
  "            <meta charset=\"utf-8\">\n".data ++
  "            <title>TCP HTTP Server</title>\n".data ++
  "            <style>\n".data ++
  "                body \x7b \n".data ++
  "                    font-family: Monocraft, sans-serif; max-width: 800px;\n".data ++
  "                    margin: 50px auto;\n".data ++
  "                    padding: 20px;\n".data ++
  "                \x7d\n".data ++
  "                h1 \x7b color: #333; \x7d\n".data ++
  "                ul \x7b list-style-type: none; padding: 0; \x7d\n".data ++
  "                li \x7b margin: 10px 0; \x7d\n".data ++
  "                a \x7b color: #0066cc; text-decoration: none; \x7d\n".data ++
  "                a:hover \x7b text-decoration: underline; \x7d\n".data ++
  "            </style>\n".data ++
  "        </head>\n".data ++
  "        <body>\n".data ++
  "            <h1>Многопоточный TCP HTTP Server</h1>\n".data ++
  "            <p>Доступные сервисы:</p>\n".data ++
  "            <ul>\n".data ++
  "                <li><a href=\"movies\">Поиск фильмов</a></li>\n".data ++
  "                <li><a href=\"/exchange?currency=USD\">Курсы валют (USD)</a></li>\n".data ++
  "                <li><a href=\"/exchange?currency=EUR\">Курсы валют (EUR)</a></li>\n".data ++
  "                <li><a href=\"/exchange?currency=GBP\">Курсы валют (GBP)</a></li>\n".data ++
  "                <li><a href=\"/exchange?currency=JPY\">Курсы валют (JPY)</a></li>\n".data ++
  "                <li><a href=\"/movie?title=Matrix\">Информация о фильме: Matrix</a></li>\n".data ++
  "                <li><a href=\"/movie?title=Inception\">Информация о фильме: Inception</a></li>\n".data ++
  "                <li><a href=\"/movie?title=The Shawshank Redemption\">Информация о фильме: The Shawshank Redemption</a></li>\n".data ++
  "            </ul>\n".data ++
  "        </body>\n".data ++
  "    </html>\n".data ++
  "    ".data

/-- The literal returned by `get_search_movies`. -/
def search_movies_page : Str :=
  "\n".data ++
  "    <!DOCTYPE html>\n".data ++
  "    <html>\n".data ++
  "    <head>\n".data ++
  "        <meta charset=\"UTF-8\" />\n".data ++
  "        <title>Поиск фильмов</title>\n".data ++
  "        <style>\n".data ++
  "            body \x7b\n".data ++
  "                    font-family: Monocraft, sans-serif; max-width: 800px;\n".data ++
  "                    margin: 50px auto;\n".data ++
  "                    padding: 20px;\n".data ++
  "                \x7d\n".data ++
  "                h1 \x7b color: #333; \x7d\n".data ++
  "                a \x7b color: #0066cc; text-decoration: none; \x7d\n".data ++
  "                a:hover \x7b text-decoration: underline; \x7d\n".data ++
  "        </style>\n".data ++
  "    </head>\n".data ++
  "    <body>\n".data ++
  "        <form action=\"/movie\" method=\"get\">\n".data ++
  "        <h1>Поиск фильмов</h1>\n".data ++
  "        <input type=\"text\" name=\"title\" placeholder=\"Название фильма\">\n".data ++
  "        <button type=\"submit\">Найти</button>\n".data ++
  "        </form>\n".data ++
  "        <p style=\"margin-top: 30px;\"><a href=\"/\">На главную</a></p>\n".data ++
  "    </body>\n".data ++
  "    </html>\n".data ++
  "    ".data

/-- The constant part of the 404 body before the interpolated path. -/
def not_found_pre : Str :=
  "\n".data ++
  "            <!DOCTYPE html>\n".data ++
  "            <html>\n".data ++
  "                <head>\n".data ++
  "                    <meta charset=\"utf-8\">\n".data ++
  "                    <title>404 - Не найдено</title>\n".data ++
  "                </head>\n".data ++
  "                <body>\n".data ++
  "                    <h1>404 - Страница не найдена</h1>\n".data ++
  "                    <p>Путь ".data

/-- The constant part of the 404 body after the interpolated path. -/
def not_found_post : Str :=
  " не найден на сервере.</p>\n".data ++
  "                    <a href=\"/\">На главную</a>\n".data ++
  "                </body>\n".data ++
  "            </html>\n".data ++
  "            ".data

/-- The 404 body built by `handle_client` for an unmatched path (the
f-string with the requested path interpolated). -/
def not_found_body (path : Str) : Str :=
  not_found_pre ++ path ++ not_found_post

/-- The fixed 400 body sent on a `UnicodeDecodeError`. -/
def bad_request_body : Str :=
  "<h1>400 - Bad Request</h1><p>Неверный формат запроса</p>".data

/-- The fixed 500 body sent from the catch-all handler. -/
def internal_error_body : Str :=
  "<h1>500 - Internal Server Error</h1>".data

/-- The server's `create_http_response`: the status line, the three fixed
headers (with `Content-Length` computed from the UTF-8 encoding of the
body), a blank line, then the body, all encoded as UTF-8. -/
def create_http_response (status_code : Int) (status_text : Str) (body : Str) :
    List Nat :=
  let headers : Str :=
    "HTTP/1.1 ".data ++ intStr status_code ++ " ".data ++ status_text ++
      "\r\n".data ++
      "Content-Type: text/html; charset=utf-8\r\n".data ++
      "Content-Length: ".data ++ natStr (utf8Encode body).length ++ "\r\n".data ++
      "Connection: close\r\n".data ++
      "\r\n".data
  utf8Encode headers ++ utf8Encode body

/-- Observable interaction of one worker with its client socket: an
attempted `sendall` (with the bytes passed to it) or a `close`. -/
inductive SockEvent where
  | send (bytes : List Nat)
  | close
deriving DecidableEq

/-- Environment of one `handle_client` call.  `recvRaises` models the
single `recv` raising an `OSError`; `recvData` is what it returns
otherwise.  `exchange` and `movie` are the two external collaborators
(`handle_exchange_request` / `handle_movie_request`), which perform network
calls; `none` models an exception escaping the collaborator.  `sendOk`
tells whether a given `sendall` attempt succeeds or raises. -/
structure ClientWorld where
  recvRaises : Bool
  recvData : List Nat
  exchange : QueryMap → Option Str
  movie : QueryMap → Option Str
  sendOk : List Nat → Bool

/-- Events of the catch-all `except Exception` handler: build and attempt to
send the fixed 500 response (its own failure is swallowed by the inner
`try`/`except pass`). -/
def error500Events : List SockEvent :=
  [SockEvent.send
    (create_http_response 500 "Internal Server Error".data internal_error_body)]

/-- The routing and response part of `handle_client`, after a successful
parse: select the body and status by exact path match (`/` and the empty
path give the index page; unmatched paths give the 404 body), build the
response, attempt to send it, and fall into the catch-all 500 path when a
collaborator raises or the send fails. -/
def respond (exchange movie : QueryMap → Option Str) (sendOk : List Nat → Bool)
    (path : Str) (params : QueryMap) : List SockEvent :=
  let result : Option (Int × Str × Str) :=
    if path = "/".data ∨ path = [] then some (200, "OK".data, index_page)
    else if path = "/movies".data then some (200, "OK".data, search_movies_page)
    else if path = "/exchange".data then
      (exchange params).map (fun b => (200, "OK".data, b))
    else if path = "/movie".data then
      (movie params).map (fun b => (200, "OK".data, b))
    else some (404, "Not Found".data, not_found_body path)
  match result with
  | none => error500Events
  | some (code, text, body) =>
    let resp := create_http_response code text body
    if sendOk resp then [SockEvent.send resp]
    else SockEvent.send resp :: error500Events

/-- The body of `handle_client`'s `try` statement together with its two
`except` clauses: read, return silently on zero bytes, decode (a failure
sends the fixed 400 response), parse (a `ValueError` escaping `urlparse`
reaches the catch-all 500 path), then route and respond. -/
def tryBody (w : ClientWorld) : List SockEvent :=
  if w.recvRaises then error500Events
  else if w.recvData = [] then []
  else
    match utf8DecodeStrict w.recvData with
    | none =>
      [SockEvent.send
        (create_http_response 400 "Bad Request".data bad_request_body)]
    | some request_str =>
      match parse_http_request request_str with
      | .error _ => error500Events
      | .ok mp => respond w.exchange w.movie w.sendOk mp.2.1 mp.2.2

/-- The server's `handle_client` as a socket-event trace: whatever the
`try`/`except` part does, the `finally` block closes the client socket
exactly once at the end. -/
def handle_client (w : ClientWorld) : List SockEvent :=
  tryBody w ++ [SockEvent.close]

/-- The request target: the second whitespace token of the first
CRLF-delimited line, when present. -/
def requestTarget? (request : Str) : Option Str :=
  match splitCRLF request with
  | [] => none
  | request_line :: _ =>
    match pySplitWs request_line with
    | _ :: full_path :: _ => some full_path
    | _ => none

/-- Whether `urlsplit` would treat the target as carrying an authority
(netloc) component, i.e. whether after sanitisation and scheme removal the
remainder starts with `//`.  All `ValueError`s of `urlsplit` live inside
this case. -/
def targetHasAuthority (fp : Str) : Bool :=
  decide ((schemeSplit (wsClean fp)).2.take 2 = ['/', '/'])

/-- Whether a raw request has no target at all or a target without an
authority component. -/
def noAuthorityTarget (request : Str) : Bool :=
  match requestTarget? request with
  | none => true
  | some fp => ! targetHasAuthority fp

/-- The wire format of the response as the specification states it: the
bytes of `HTTP/1.1 <code> <text>` then the fixed headers with
`Content-Length` equal to the UTF-8 byte length of the body, a blank line,
and the body bytes. -/
def response_wire_format (code : Int) (text : Str) (body : Str) : List Nat :=
  utf8Encode "HTTP/1.1 ".data ++ utf8Encode (intStr code) ++
    utf8Encode " ".data ++ utf8Encode text ++ utf8Encode "\r\n".data ++
    utf8Encode "Content-Type: text/html; charset=utf-8\r\n".data ++
    utf8Encode "Content-Length: ".data ++
    utf8Encode (natStr (utf8Encode body).length) ++ utf8Encode "\r\n".data ++
    utf8Encode "Connection: close\r\n".data ++ utf8Encode "\r\n".data ++
    utf8Encode body

/-- UTF-8 encoding distributes over concatenation. -/
theorem utf8Encode_append (a b : Str) :
    utf8Encode (a ++ b) = utf8Encode a ++ utf8Encode b := by
  induction a with
  | nil => rfl
  | cons c a ih =>
    show utf8EncodeChar c ++ utf8Encode (a ++ b) =
      (utf8EncodeChar c ++ utf8Encode a) ++ utf8Encode b
    rw [ih, List.append_assoc]

/-- A `takeWhile` walks through a prefix on which the predicate holds. -/
theorem takeWhile_append_of_all (p : Char → Bool) (a b : Str)
    (h : ∀ x ∈ a, p x = true) :
    (a ++ b).takeWhile p = a ++ b.takeWhile p := by
  induction a with
  | nil => rfl
  | cons c a ih =>
    have hc := h c (List.mem_cons_self c a)
    simp only [List.cons_append, List.takeWhile_cons, hc, if_true]
    rw [ih (fun x hx => h x (List.mem_cons_of_mem c hx))]

/-- A `dropWhile` discards a prefix on which the predicate holds. -/
theorem dropWhile_append_of_all (p : Char → Bool) (a b : Str)
    (h : ∀ x ∈ a, p x = true) :
    (a ++ b).dropWhile p = b.dropWhile p := by
  induction a with
  | nil => rfl
  | cons c a ih =>
    have hc := h c (List.mem_cons_self c a)
    simp only [List.cons_append, List.dropWhile_cons, hc, if_true]
    exact ih (fun x hx => h x (List.mem_cons_of_mem c hx))

/-- A list all of whose elements differ from `c` does not contain `c`. -/
theorem contains_eq_false_of_forall (l : Str) (c : Char)
    (h : ∀ x ∈ l, x ≠ c) : l.contains c = false := by
  induction l with
  | nil => rfl
  | cons a l ih =>
    have ha := h a (List.mem_cons_self a l)
    simp only [List.contains_cons, Bool.or_eq_false_iff]
    exact ⟨by simpa using fun hc => ha (by simpa using hc.symm),
      ih (fun x hx => h x (List.mem_cons_of_mem a hx))⟩

/-- A list containing `c` contains `c`. -/
theorem contains_eq_true_of_mem (l : Str) (c : Char) (h : c ∈ l) :
    l.contains c = true := by
  induction l with
  | nil => cases h
  | cons a l ih =>
    rcases List.mem_cons.mp h with h1 | h2
    · simp [List.contains_cons, h1]
    · simp only [List.contains_cons, ih h2, Bool.or_true]

/-- The `try` part of `handle_client` never closes the socket: every event
it emits is a send attempt. -/
theorem tryBody_no_close (w : ClientWorld) : SockEvent.close ∉ tryBody w := by
  unfold tryBody respond
  repeat'
    first
      | simp [error500Events]
      | split

/-- Claim C2: for every accepted connection, whatever the outcome of the
read, the decode, the parse, the route handlers, the response write and
even the 500 recovery write, the connection handler closes the client
socket exactly once. -/
theorem handle_client_closes_exactly_once (w : ClientWorld) :
    (handle_client w).count SockEvent.close = 1 := by
  unfold handle_client
  rw [List.count_append, List.count_eq_zero.mpr (tryBody_no_close w)]
  simp

/-- Claim C8: a connection whose single read returns zero bytes is closed
with no response bytes written at all. -/
theorem handle_client_zero_read_silent (w : ClientWorld)
    (h1 : w.recvRaises = false) (h2 : w.recvData = []) :
    handle_client w = [SockEvent.close] := by
  unfold handle_client tryBody
  rw [h1]
  simp [h2]

/-- Witness for claim C8 at a concrete world with an empty read. -/
theorem handle_client_zero_read_silent_witness :
    (⟨false, [], fun _ => none, fun _ => none,
      fun _ => true⟩ : ClientWorld).recvData = [] ∧
    handle_client ⟨false, [], fun _ => none, fun _ => none, fun _ => true⟩ =
      [SockEvent.close] :=
  ⟨rfl, handle_client_zero_read_silent _ rfl rfl⟩

/-- Claim C7: a received buffer that is not valid UTF-8 makes the handler
send the fixed 400 Bad Request response and then close the connection. -/
theorem handle_client_undecodable_sends_400 (w : ClientWorld)
    (h1 : w.recvRaises = false) (h2 : w.recvData ≠ [])
    (h3 : utf8DecodeStrict w.recvData = none) :
    handle_client w =
      [SockEvent.send
        (create_http_response 400 "Bad Request".data bad_request_body),
       SockEvent.close] := by
  unfold handle_client tryBody
  rw [h1]
  simp [h2, h3]

/-- Witness for claim C7 at the concrete buffer `[0xFF]`, which is invalid
UTF-8. -/
theorem handle_client_undecodable_sends_400_witness :
    utf8DecodeStrict [0xFF] = none ∧
    handle_client ⟨false, [0xFF], fun _ => none, fun _ => none,
        fun _ => true⟩ =
      [SockEvent.send
        (create_http_response 400 "Bad Request".data bad_request_body),
       SockEvent.close] :=
  ⟨rfl, handle_client_undecodable_sends_400 _ rfl (by simp) rfl⟩

/-- Claim C3: for every status code, status text and body, the response
builder produces exactly the specified wire bytes, with `Content-Length`
the UTF-8 byte length of the body — which differs from the character count
for multi-byte bodies, as the `é` instance shows. -/
theorem create_http_response_matches_wire_format (status_code : Int)
    (status_text : Str) (body : Str) :
    create_http_response status_code status_text body =
      response_wire_format status_code status_text body ∧
    natStr (utf8Encode "é".data).length = "2".data ∧ "é".data.length = 1 := by
  refine ⟨?_, by decide, by decide⟩
  unfold create_http_response response_wire_format
  simp only [utf8Encode_append, List.append_assoc]

/-- Claim C10: the trace of `handle_client` is a function of the parsed
path and query only — two decodable requests parsing to the same path and
query but different methods produce identical traces. -/
theorem handle_client_method_independent (w1 w2 : ClientWorld)
    (s1 s2 m1 m2 p : Str) (q : QueryMap)
    (hr1 : w1.recvRaises = false) (hr2 : w2.recvRaises = false)
    (hd1 : w1.recvData ≠ []) (hd2 : w2.recvData ≠ [])
    (hde1 : utf8DecodeStrict w1.recvData = some s1)
    (hde2 : utf8DecodeStrict w2.recvData = some s2)
    (hp1 : parse_http_request s1 = .ok (m1, p, q))
    (hp2 : parse_http_request s2 = .ok (m2, p, q))
    (hex : w1.exchange = w2.exchange) (hmv : w1.movie = w2.movie)
    (hsend : w1.sendOk = w2.sendOk) :
    handle_client w1 = handle_client w2 := by
  unfold handle_client tryBody
  simp only [hr1, hr2, if_neg hd1, if_neg hd2, hde1, hde2, hp1, hp2, hex, hmv,
    hsend, Bool.false_eq_true, if_false]

/-- Witness for claim C10: a GET and a POST of `/movies` produce the same
trace. -/
theorem handle_client_method_independent_witness :
    handle_client ⟨false, utf8Encode "GET /movies HTTP/1.1".data,
        fun _ => none, fun _ => none, fun _ => true⟩ =
      handle_client ⟨false, utf8Encode "POST /movies HTTP/1.1".data,
        fun _ => none, fun _ => none, fun _ => true⟩ :=
  handle_client_method_independent _ _
    "GET /movies HTTP/1.1".data "POST /movies HTTP/1.1".data
    "GET".data "POST".data "/movies".data []
    rfl rfl (by decide) (by decide) rfl rfl rfl rfl rfl rfl rfl

/-- `qsInsert` keeps every value list non-empty. -/
theorem qsInsert_vals_ne_nil (m : QueryMap) (k v : Str)
    (h : ∀ kv ∈ m, kv.2 ≠ []) : ∀ kv ∈ qsInsert m k v, kv.2 ≠ [] := by
  induction m with
  | nil =>
    intro kv hkv
    simp only [qsInsert, List.mem_singleton] at hkv
    subst hkv
    simp
  | cons a m ih =>
    intro kv hkv
    have ha := h a (List.mem_cons_self a m)
    have hm : ∀ kv ∈ m, kv.2 ≠ [] := fun x hx => h x (List.mem_cons_of_mem a hx)
    rcases a with ⟨k', vs⟩
    by_cases hk : k' = k
    · simp only [qsInsert, if_pos hk] at hkv
      rcases List.mem_cons.mp hkv with h1 | h2
      · subst h1; simp
      · exact hm kv h2
    · simp only [qsInsert, if_neg hk] at hkv
      rcases List.mem_cons.mp hkv with h1 | h2
      · subst h1; exact ha
      · exact ih hm kv h2

/-- Folding `qsInsert` over any pair list preserves non-emptiness of all
value lists. -/
theorem foldl_qsInsert_vals_ne_nil (pairs : List (Str × Str)) (m : QueryMap)
    (h : ∀ kv ∈ m, kv.2 ≠ []) :
    ∀ kv ∈ pairs.foldl (fun acc nv => qsInsert acc nv.1 nv.2) m, kv.2 ≠ [] := by
  induction pairs generalizing m with
  | nil => simpa using h
  | cons nv pairs ih =>
    intro kv hkv
    exact ih (qsInsert m nv.1 nv.2) (qsInsert_vals_ne_nil m nv.1 nv.2 h) kv hkv

/-- A successful `qsGet` returns a value list stored in the mapping. -/
theorem qsGet_mem_vals (m : QueryMap) (k : Str) (vs : List Str)
    (h : qsGet m k = some vs) : ∃ k2, (k2, vs) ∈ m := by
  induction m with
  | nil => simp [qsGet] at h
  | cons a m ih =>
    rcases a with ⟨k', vs'⟩
    by_cases hk : k' = k
    · simp only [qsGet, if_pos hk] at h
      injection h with h
      subst h
      exact ⟨k', List.mem_cons_self _ _⟩
    · simp only [qsGet, if_neg hk] at h
      obtain ⟨k2, hm⟩ := ih h
      exact ⟨k2, List.mem_cons_of_mem _ hm⟩

/-- Claim C9: a query mapping returned by the parser never maps a key to an
empty list of values. -/
theorem parse_query_values_never_empty (request m p : Str) (qm : QueryMap)
    (k : Str) (vs : List Str)
    (hp : parse_http_request request = .ok (m, p, qm))
    (hq : qsGet qm k = some vs) : vs ≠ [] := by
  have hcases : qm = [] ∨ ∃ q, qm = parse_qs q := by
    unfold parse_http_request at hp
    split at hp
    · simp only [Except.ok.injEq, Prod.mk.injEq] at hp
      exact Or.inl hp.2.2.symm
    · split at hp
      · split at hp
        · cases hp
        · simp only [Except.ok.injEq, Prod.mk.injEq] at hp
          exact Or.inr ⟨_, hp.2.2.symm⟩
      · simp only [Except.ok.injEq, Prod.mk.injEq] at hp
        exact Or.inl hp.2.2.symm
  rcases hcases with h | ⟨q, h⟩
  · subst h; simp [qsGet] at hq
  · subst h
    obtain ⟨k2, hm⟩ := qsGet_mem_vals _ _ _ hq
    exact foldl_qsInsert_vals_ne_nil (parse_qsl q) [] (by simp) (k2, vs) hm

/-- Witness for claim C9 at a concrete request with one query parameter. -/
theorem parse_query_values_never_empty_witness :
    parse_http_request "GET /exchange?currency=EUR HTTP/1.1".data =
      .ok ("GET".data, "/exchange".data, [("currency".data, ["EUR".data])]) ∧
    (["EUR".data] : List Str) ≠ [] :=
  ⟨rfl,
    parse_query_values_never_empty "GET /exchange?currency=EUR HTTP/1.1".data
      "GET".data "/exchange".data [("currency".data, ["EUR".data])]
      "currency".data ["EUR".data] rfl rfl⟩

/-- Counterexample to claim C5: with CPython's current `parse_qs` defaults
(separator `&` only, since 3.9.2), `;` does not separate pairs, so
`a=1;a=2` yields the single value `1;a=2` for `a` rather than `["1","2"]`. -/
theorem semicolon_not_a_separator :
    parse_qs "a=1;a=2".data = [("a".data, ["1;a=2".data])] ∧
    qsGet (parse_qs "a=1;a=2".data) "a".data ≠ some ["1".data, "2".data] :=
  ⟨rfl, by decide⟩

/-- Looking a key up after inserting one decoded pair: the matching key
accumulates the value at the end, all other keys are untouched. -/
theorem qsGet_qsInsert (m : QueryMap) (k v k2 : Str) :
    qsGet (qsInsert m k v) k2 =
      if k2 = k then some ((qsGet m k2).getD [] ++ [v]) else qsGet m k2 := by
  induction m with
  | nil =>
    by_cases hk : k2 = k
    · subst hk; simp [qsInsert, qsGet]
    · have hk2 : ¬ k = k2 := fun h => hk h.symm
      simp [qsInsert, qsGet, hk, hk2]
  | cons a m ih =>
    rcases a with ⟨k', vs⟩
    by_cases h1 : k' = k
    · subst h1
      by_cases h2 : k' = k2
      · subst h2
        simp [qsInsert, qsGet]
      · have h2b : ¬ k2 = k' := fun h => h2 h.symm
        simp [qsInsert, qsGet, h2, h2b]
    · by_cases h2 : k' = k2
      · have hx : ¬ k2 = k := by
          intro hkk
          exact h1 (by rw [h2, hkk])
        simp [qsInsert, qsGet, h1, h2, hx]
      · simp [qsInsert, qsGet, h1, h2, ih]

/-- Folding `qsInsert` over a pair list appends, for each key, exactly the
values carried by that key's pairs, in list order. -/
theorem qsGet_foldl_qsInsert (pairs : List (Str × Str)) (m : QueryMap)
    (k : Str) :
    (qsGet (pairs.foldl (fun acc nv => qsInsert acc nv.1 nv.2) m) k).getD [] =
      (qsGet m k).getD [] ++
        pairs.filterMap (fun nv => if nv.1 = k then some nv.2 else none) := by
  induction pairs generalizing m with
  | nil => simp
  | cons nv pairs ih =>
    simp only [List.foldl_cons, List.filterMap_cons]
    rw [ih, qsGet_qsInsert]
    by_cases hk : nv.1 = k
    · subst hk
      simp
    · have hk2 : ¬ k = nv.1 := fun h => hk h.symm
      simp [hk, hk2]

/-- Claim C5 (amended): `parse_qs` decodes with `+`-to-space and
percent-decoding, splits pairs on `&` only (`;` is not a separator in the
modelled CPython version), and accumulates repeated keys in order: the
value list of every key is exactly the sequence of that key's decoded
values among the decoded pairs, and `a=1&a=2` yields `["1","2"]`. -/
theorem parse_qs_accumulates_in_order :
    (∀ qs k, (qsGet (parse_qs qs) k).getD [] =
        (parse_qsl qs).filterMap
          (fun nv => if nv.1 = k then some nv.2 else none)) ∧
    qsGet (parse_qs "a=1&a=2".data) "a".data = some ["1".data, "2".data] ∧
    qsGet (parse_qs "a=%41+b".data) "a".data = some ["A b".data] := by
  refine ⟨fun qs k => ?_, rfl, rfl⟩
  have h := qsGet_foldl_qsInsert (parse_qsl qs) [] k
  simpa [parse_qs, qsGet] using h

/-- Counterexample to claim C6: the request line `GET //[ HTTP/1.1` makes
`urlparse` raise `ValueError("Invalid IPv6 URL")`, which propagates out of
`parse_http_request`. -/
theorem urlparse_raises_on_bracket_netloc :
    parse_http_request "GET //[ HTTP/1.1".data =
      .error "Invalid IPv6 URL".data :=
  rfl

/-- Claim C6 (amended): the parser terminates normally — worst case the
sentinel — for every input whose request target carries no authority
(netloc) component; a target with an authority component can raise
`ValueError`, as the unmatched-bracket counterexample shows. -/
theorem parse_http_request_total_without_authority (s : Str)
    (h : noAuthorityTarget s = true) :
    ∃ r, parse_http_request s = .ok r := by
  cases hsplit : splitCRLF s with
  | nil => exact ⟨([], [], []), by simp [parse_http_request, hsplit]⟩
  | cons l0 ls =>
    cases htoks : pySplitWs l0 with
    | nil => exact ⟨([], [], []), by simp [parse_http_request, hsplit, htoks]⟩
    | cons t1 ts =>
      cases ts with
      | nil => exact ⟨([], [], []), by simp [parse_http_request, hsplit, htoks]⟩
      | cons fp ts2 =>
        have htarget : requestTarget? s = some fp := by
          simp [requestTarget?, hsplit, htoks]
        have hfalse : targetHasAuthority fp = false := by
          simp only [noAuthorityTarget, htarget, Bool.not_eq_eq_eq_not,
            Bool.not_true] at h
          exact h
        have hcond : ¬ (schemeSplit (wsClean fp)).2.take 2 = ['/', '/'] :=
          of_decide_eq_false hfalse
        have hok : ∃ u, urlsplit fp = .ok u := by
          simp only [urlsplit]
          rw [if_neg hcond]
          exact ⟨_, rfl⟩
        obtain ⟨u, hu⟩ := hok
        have hparse : ∃ r2, urlparse fp = .ok r2 := by
          simp only [urlparse, hu]
          split
          · exact ⟨_, rfl⟩
          · exact ⟨_, rfl⟩
        obtain ⟨r2, hr2⟩ := hparse
        exact ⟨(t1, r2.path, parse_qs r2.query),
          by simp [parse_http_request, hsplit, htoks, hr2]⟩

/-- Witness for the amended claim C6 at a concrete request without an
authority component. -/
theorem parse_http_request_total_without_authority_witness :
    noAuthorityTarget "GET /movies HTTP/1.1".data = true ∧
    ∃ r, parse_http_request "GET /movies HTTP/1.1".data = .ok r :=
  ⟨rfl, parse_http_request_total_without_authority _ rfl⟩

/-- Counterexample to claim C1: the malformed request line `X` (one token)
parses to the empty sentinel, but the handler serves the index page with
status 200 — the empty path matches the root route — and that response is
not the 404 response. -/
theorem malformed_line_yields_index_200 :
    parse_http_request "X\r\n\r\n".data = .ok ([], [], []) ∧
    handle_client ⟨false, [88, 13, 10, 13, 10], fun _ => none, fun _ => none,
        fun _ => true⟩ =
      [SockEvent.send (create_http_response 200 "OK".data index_page),
       SockEvent.close] ∧
    create_http_response 200 "OK".data index_page ≠
      create_http_response 404 "Not Found".data (not_found_body []) :=
  ⟨rfl, rfl, by decide⟩

/-- Claim C1 (amended): a request line with fewer than two tokens yields
the sentinel ParsedRequest, and the handler then serves the index page
with status 200 (the empty sentinel path matches the root route), not a
404. -/
theorem malformed_request_line_routes_to_index (w : ClientWorld) (s : Str)
    (hr : w.recvRaises = false) (hd : w.recvData ≠ [])
    (hde : utf8DecodeStrict w.recvData = some s)
    (htok : (pySplitWs ((splitCRLF s).headD [])).length < 2)
    (hsend : w.sendOk (create_http_response 200 "OK".data index_page) = true) :
    parse_http_request s = .ok ([], [], []) ∧
    handle_client w =
      [SockEvent.send (create_http_response 200 "OK".data index_page),
       SockEvent.close] := by
  have hparse : parse_http_request s = .ok ([], [], []) := by
    cases hsplit : splitCRLF s with
    | nil => simp [parse_http_request, hsplit]
    | cons l0 ls =>
      rw [hsplit] at htok
      simp only [List.headD_cons] at htok
      cases htoks : pySplitWs l0 with
      | nil => simp [parse_http_request, hsplit, htoks]
      | cons t1 ts =>
        cases ts with
        | nil => simp [parse_http_request, hsplit, htoks]
        | cons t2 ts2 =>
          rw [htoks] at htok
          simp at htok
          omega
  refine ⟨hparse, ?_⟩
  unfold handle_client tryBody
  simp only [hr, Bool.false_eq_true, if_false, if_neg hd, hde, hparse]
  unfold respond
  simp [hsend]

/-- Witness for the amended claim C1 at the concrete request `X`. -/
theorem malformed_request_line_routes_to_index_witness :
    utf8DecodeStrict [88, 13, 10, 13, 10] = some "X\r\n\r\n".data ∧
    parse_http_request "X\r\n\r\n".data = .ok ([], [], []) ∧
    handle_client ⟨false, [88, 13, 10, 13, 10], fun _ => some [], fun _ => some [],
        fun _ => true⟩ =
      [SockEvent.send (create_http_response 200 "OK".data index_page),
       SockEvent.close] :=
  ⟨rfl,
    (malformed_request_line_routes_to_index
      ⟨false, [88, 13, 10, 13, 10], fun _ => some [], fun _ => some [],
        fun _ => true⟩
      "X\r\n\r\n".data rfl (by simp) rfl (by decide) rfl).1,
    (malformed_request_line_routes_to_index
      ⟨false, [88, 13, 10, 13, 10], fun _ => some [], fun _ => some [],
        fun _ => true⟩
      "X\r\n\r\n".data rfl (by simp) rfl (by decide) rfl).2⟩

/-- Counterexample to claim C4: in the well-formed request line
`GET /a;b?x=1 HTTP/1.1` the path `/a;b` is not returned verbatim —
`urlparse` splits the `;b` suffix of the last segment off as parameters,
so the parser returns `/a`. -/
theorem path_params_stripped_counterexample :
    parse_http_request "GET /a;b?x=1 HTTP/1.1".data =
      .ok ("GET".data, "/a".data, [("x".data, ["1".data])]) ∧
    "/a".data ≠ "/a;b".data :=
  ⟨rfl, by decide⟩

/-- Scanning a `\r`-free prefix up to an explicit CRLF yields that prefix
(after the accumulator) as one piece. -/
theorem splitCRLFAux_append_crlf (l r : Str) (h : '\r' ∉ l) :
    ∀ cur, splitCRLFAux cur (l ++ '\r' :: '\n' :: r) =
      (cur.reverse ++ l) :: splitCRLF r := by
  induction l with
  | nil =>
    intro cur
    simp [splitCRLFAux.eq_3, splitCRLF]
  | cons c l ih =>
    intro cur
    have hc : c ≠ '\r' := fun hh => h (hh ▸ List.mem_cons_self c l)
    have h2 : '\r' ∉ l := fun hh => h (List.mem_cons_of_mem c hh)
    rw [List.cons_append,
      splitCRLFAux.eq_4 cur c (l ++ '\r' :: '\n' :: r) (by simp)
        (fun rest1 hcr _ => absurd hcr hc),
      ih h2 (c :: cur)]
    simp

/-- Python `split("\r\n")` of a `\r`-free line followed by CRLF and a
remainder: the line is the first piece. -/
theorem splitCRLF_append_crlf (l r : Str) (h : '\r' ∉ l) :
    splitCRLF (l ++ '\r' :: '\n' :: r) = l :: splitCRLF r := by
  have hx := splitCRLFAux_append_crlf l r h []
  simpa [splitCRLF] using hx

/-- Scanning a whitespace-free token followed by a space: the token (after
the accumulator) is emitted and scanning resumes after the space. -/
theorem pySplitWsAux_token (t : Str) (hw : ∀ c ∈ t, pyIsSpace c = false) :
    ∀ cur r, pySplitWsAux cur (t ++ ' ' :: r) =
      (if cur.reverse ++ t = [] then [] else [cur.reverse ++ t]) ++
        pySplitWs r := by
  induction t with
  | nil =>
    intro cur r
    have hsp : pyIsSpace ' ' = true := rfl
    simp [pySplitWsAux, pySplitWs, hsp, List.reverse_eq_nil_iff]
  | cons c t ih =>
    intro cur r
    have hc : pyIsSpace c = false := hw c (List.mem_cons_self c t)
    have ht : ∀ x ∈ t, pyIsSpace x = false :=
      fun x hx => hw x (List.mem_cons_of_mem c hx)
    rw [List.cons_append]
    simp only [pySplitWsAux, hc, Bool.false_eq_true, if_false]
    rw [ih ht (c :: cur)]
    simp

/-- Scanning a whitespace-free token at the end of the input: the token
(after the accumulator) is the only piece. -/
theorem pySplitWsAux_last (t : Str) (hw : ∀ c ∈ t, pyIsSpace c = false) :
    ∀ cur, pySplitWsAux cur t =
      if cur.reverse ++ t = [] then [] else [cur.reverse ++ t] := by
  induction t with
  | nil =>
    intro cur
    simp [pySplitWsAux, List.reverse_eq_nil_iff]
  | cons c t ih =>
    intro cur
    have hc : pyIsSpace c = false := hw c (List.mem_cons_self c t)
    have ht : ∀ x ∈ t, pyIsSpace x = false :=
      fun x hx => hw x (List.mem_cons_of_mem c hx)
    simp only [pySplitWsAux, hc, Bool.false_eq_true, if_false]
    rw [ih ht (c :: cur)]
    simp

/-- Python `str.split()` of `<token> <rest>`: the token is split off. -/
theorem pySplitWs_token (t r : Str) (ht : t ≠ [])
    (hw : ∀ c ∈ t, pyIsSpace c = false) :
    pySplitWs (t ++ ' ' :: r) = t :: pySplitWs r := by
  have hx := pySplitWsAux_token t hw [] r
  simp only [List.reverse_nil, List.nil_append] at hx
  rw [pySplitWs, hx, if_neg ht]
  rfl

/-- Python `str.split()` of a single whitespace-free non-empty token. -/
theorem pySplitWs_single (t : Str) (ht : t ≠ [])
    (hw : ∀ c ∈ t, pyIsSpace c = false) :
    pySplitWs t = [t] := by
  have hx := pySplitWsAux_last t hw []
  simp only [List.reverse_nil, List.nil_append] at hx
  rw [pySplitWs, hx, if_neg ht]

/-- On an origin-form target `<path>?<query>` — path starting with `/` but
not `//`, no `?` or `#` in the path, no `#` in the query, no whitespace,
and no `;` in the final path segment — `urlparse` returns the path
verbatim and the query unchanged. -/
theorem urlparse_origin_form (p q : Str)
    (hp0 : p.take 1 = ['/'])
    (hp2 : p.take 2 ≠ ['/', '/'])
    (hpw : ∀ c ∈ p, pyIsSpace c = false)
    (hpq : ∀ c ∈ p, c ≠ '?')
    (hph : ∀ c ∈ p, c ≠ '#')
    (hsemi : pyFindCharFrom ';' ((pyRfindChar '/' p).getD 0) p = none)
    (hqw : ∀ c ∈ q, pyIsSpace c = false)
    (hqh : ∀ c ∈ q, c ≠ '#') :
    urlparse (p ++ '?' :: q) = .ok ⟨[], [], p, [], q, []⟩ := by
  obtain ⟨pt, rfl⟩ : ∃ pt, p = '/' :: pt := by
    cases p with
    | nil => simp at hp0
    | cons c pt =>
      refine ⟨pt, ?_⟩
      simp only [List.take_succ_cons, List.take_zero, List.cons.injEq] at hp0
      rw [hp0.1]
  have hclean : wsClean (('/' :: pt) ++ '?' :: q) = ('/' :: pt) ++ '?' :: q := by
    unfold wsClean
    rw [List.cons_append, List.dropWhile_cons, if_neg (by decide)]
    rw [List.filter_eq_self.mpr]
    intro a ha
    have hws : pyIsSpace a = false ∨ a = '?' := by
      rcases List.mem_cons.mp ha with rfl | ha2
      · exact Or.inl rfl
      · rcases List.mem_append.mp ha2 with hp3 | hq3
        · exact Or.inl (hpw _ (List.mem_cons_of_mem _ hp3))
        · rcases List.mem_cons.mp hq3 with rfl | hq4
          · exact Or.inr rfl
          · exact Or.inl (hqw _ hq4)
    rcases hws with hws | rfl
    · simp only [decide_eq_true_eq]
      rintro (rfl | rfl | rfl) <;> exact absurd hws (by decide)
    · decide
  have hscheme : schemeSplit (('/' :: pt) ++ '?' :: q) =
      ([], ('/' :: pt) ++ '?' :: q) := by
    unfold schemeSplit
    split
    · rw [if_neg]
      rintro ⟨-, halpha, -⟩
      rw [List.cons_append, List.headD_cons] at halpha
      exact absurd halpha (by decide)
    · rfl
  have htake2 : ¬ ((('/' :: pt) ++ '?' :: q).take 2 = ['/', '/']) := by
    cases pt with
    | nil =>
      intro h
      rw [List.cons_append, List.nil_append] at h
      simp only [List.take_succ_cons, List.take_zero, List.cons.injEq] at h
      exact absurd h.2.1 (by decide)
    | cons c pt2 =>
      intro h
      rw [List.cons_append, List.cons_append] at h
      simp only [List.take_succ_cons, List.take_zero, List.cons.injEq] at h
      exact hp2 (by simp [List.take_succ_cons, h.2.1])
  have hfq : splitFragQuery [] [] (('/' :: pt) ++ '?' :: q) =
      ⟨[], [], '/' :: pt, q, []⟩ := by
    have hnohash : ((('/' :: pt) ++ '?' :: q)).contains '#' = false := by
      apply contains_eq_false_of_forall
      intro x hx
      rcases List.mem_append.mp hx with h1 | h2
      · exact hph x h1
      · rcases List.mem_cons.mp h2 with rfl | h3
        · decide
        · exact hqh x h3
    have hhasq : ((('/' :: pt) ++ '?' :: q)).contains '?' = true :=
      contains_eq_true_of_mem _ _
        (List.mem_append_right _ (List.mem_cons_self _ _))
    unfold splitFragQuery
    simp only [hnohash, Bool.false_eq_true, if_false, hhasq, if_true]
    unfold pyPartition
    rw [takeWhile_append_of_all _ _ _ (fun x hx => decide_eq_true (hpq x hx)),
      dropWhile_append_of_all _ _ _ (fun x hx => decide_eq_true (hpq x hx))]
    simp [List.takeWhile_cons, List.dropWhile_cons]
  have hus : urlsplit (('/' :: pt) ++ '?' :: q) =
      .ok ⟨[], [], '/' :: pt, q, []⟩ := by
    simp only [urlsplit, hclean, hscheme]
    rw [if_neg htake2]
    rw [hfq]
  simp only [urlparse, hus]
  by_cases hsemi2 : ('/' :: pt).contains ';' = true
  · simp only [hsemi2, if_true]
    have hsp : splitParams ('/' :: pt) = ('/' :: pt, []) := by
      unfold splitParams
      rw [if_pos (contains_eq_true_of_mem _ _ (List.mem_cons_self _ _))]
      simp only [hsemi]
    rw [hsp]
  · simp [hsemi2]
    intro hmem
    exact absurd
      (contains_eq_true_of_mem _ _ (List.mem_cons_of_mem _ hmem)) hsemi2

/-- Claim C4 (amended): for a request whose first CRLF-delimited line is
`<METHOD> <PATH>?<QUERY> <VERSION>` with whitespace-free tokens, `PATH` in
origin form without authority (starts with `/`, not `//`), no `?` or `#`
in the path, no `#` in the query and no `;` in the final path segment, the
parser returns the method, the path verbatim and the decoded query; the
version token, header lines and body are ignored.  (A `;` in the final
path segment, a `#`, or a `//` prefix make `urlparse` strip URL structure
from the path, as the counterexample shows.) -/
theorem parse_http_request_wellformed (m p q v rest : Str)
    (hm : m ≠ []) (hmw : ∀ c ∈ m, pyIsSpace c = false)
    (hp0 : p.take 1 = ['/'])
    (hp2 : p.take 2 ≠ ['/', '/'])
    (hpw : ∀ c ∈ p, pyIsSpace c = false)
    (hpq : ∀ c ∈ p, c ≠ '?')
    (hph : ∀ c ∈ p, c ≠ '#')
    (hsemi : pyFindCharFrom ';' ((pyRfindChar '/' p).getD 0) p = none)
    (hqw : ∀ c ∈ q, pyIsSpace c = false)
    (hqh : ∀ c ∈ q, c ≠ '#')
    (hv : v ≠ []) (hvw : ∀ c ∈ v, pyIsSpace c = false) :
    parse_http_request
        ((m ++ ' ' :: ((p ++ '?' :: q) ++ ' ' :: v)) ++ '\r' :: '\n' :: rest) =
      .ok (m, p, parse_qs q) := by
  have hfpw : ∀ c ∈ p ++ '?' :: q, pyIsSpace c = false := by
    intro c hc
    rcases List.mem_append.mp hc with h1 | h2
    · exact hpw c h1
    · rcases List.mem_cons.mp h2 with rfl | h3
      · rfl
      · exact hqw c h3
  have hline : '\r' ∉ m ++ ' ' :: ((p ++ '?' :: q) ++ ' ' :: v) := by
    intro hmem
    rcases List.mem_append.mp hmem with h1 | h2
    · exact absurd (hmw _ h1) (by decide)
    · rcases List.mem_cons.mp h2 with h3 | h4
      · exact absurd h3 (by decide)
      · rcases List.mem_append.mp h4 with h5 | h6
        · exact absurd (hfpw _ h5) (by decide)
        · rcases List.mem_cons.mp h6 with h7 | h8
          · exact absurd h7 (by decide)
          · exact absurd (hvw _ h8) (by decide)
  have hsplit := splitCRLF_append_crlf _ rest hline
  have hfpne : p ++ '?' :: q ≠ [] := by simp
  have htok1 : pySplitWs (m ++ ' ' :: ((p ++ '?' :: q) ++ ' ' :: v)) =
      m :: (p ++ '?' :: q) :: [v] := by
    rw [pySplitWs_token m ((p ++ '?' :: q) ++ ' ' :: v) hm hmw,
      pySplitWs_token (p ++ '?' :: q) v hfpne hfpw,
      pySplitWs_single v hv hvw]
  have hurl := urlparse_origin_form p q hp0 hp2 hpw hpq hph hsemi hqw hqh
  simp only [parse_http_request]
  rw [hsplit]
  simp only [htok1, hurl]

/-- Witness for the amended claim C4 at the concrete request
`GET /exchange?currency=EUR HTTP/1.1` followed by a header line. -/
theorem parse_http_request_wellformed_witness :
    ("GET".data ≠ []) ∧ ("/exchange".data.take 1 = ['/']) ∧
    parse_http_request
        (("GET".data ++ ' ' :: (("/exchange".data ++ '?' :: "currency=EUR".data)
          ++ ' ' :: "HTTP/1.1".data)) ++ '\r' :: '\n' :: "Host: x".data) =
      .ok ("GET".data, "/exchange".data, parse_qs "currency=EUR".data) :=
  ⟨by decide, by decide,
    parse_http_request_wellformed "GET".data "/exchange".data
      "currency=EUR".data "HTTP/1.1".data "Host: x".data
      (by decide) (by decide) (by decide) (by decide) (by decide) (by decide)
      (by decide) (by decide) (by decide) (by decide) (by decide) (by decide)⟩
